import Mathlib

/-!
Verification of the `reverse-proxy-service` repository: the rewrite-rule
engine, the request reconstructor, the proxy invocation pipeline, the
result normalizer, the error renderer and the shared-transport factory,
shallowly embedded in Lean 4.

The crate root (`src/lib.rs`) documents the behaviour of the submodules
(`rewrite`, `future`, `error`, `oneshot`, `reused`); the submodule sources
are not part of the checked tree, so their bodies are modelled from the
specification, faithful to its words, and cross-checked against the
worked examples in the crate-root documentation.

Path-and-query strings are modelled as `List Char`.
-/

namespace RevProxy

/-- A path+query string, modelled as a list of characters. -/
abbrev Str := List Char

/-- Modelled from the spec: byte-for-byte test that `s` starts with `pat`
(the comparison underlying `TrimPrefix` and the literal substring search of
`ReplaceAll` and `ReplaceN`). -/
def startsWithPat : Str → Str → Bool
  | [], _ => true
  | _ :: _, [] => false
  | a :: as, b :: bs => a == b && startsWithPat as bs

/-- Modelled from the spec: whether `pat` occurs as a contiguous substring
of `s` (used to state that a rewrite has consumed every occurrence). -/
def containsSub (pat : Str) : Str → Bool
  | [] => startsWithPat pat []
  | c :: cs => startsWithPat pat (c :: cs) || containsSub pat cs

/-- Fuel-indexed left-to-right literal replacement; the fuel only makes the
recursion structural and is irrelevant once it exceeds the input length. -/
def replaceAllFuel (pat rep : Str) : Nat → Str → Str
  | 0, s => s
  | fuel + 1, s =>
    match pat, s with
    | [], [] => rep
    | [], c :: cs => rep ++ c :: replaceAllFuel [] rep fuel cs
    | _ :: _, [] => []
    | a :: as, c :: cs =>
      if startsWithPat (a :: as) (c :: cs) then
        rep ++ replaceAllFuel (a :: as) rep fuel (List.drop as.length cs)
      else
        c :: replaceAllFuel (a :: as) rep fuel cs

/-- Modelled from the spec: replace every non-overlapping occurrence of the
literal (non-regex) substring `pat` with `rep`, scanning left to right —
the semantics of the missing `rewrite` module's `ReplaceAll` (Rust's
`str::replace`).  An empty pattern matches at every character boundary,
as in Rust. -/
def replaceAll (pat rep : Str) (s : Str) : Str :=
  replaceAllFuel pat rep (s.length + 1) s

/-- Fuel-indexed bounded replacement; fuel is irrelevant once it exceeds
the input length. -/
def replaceNFuel (pat rep : Str) : Nat → Nat → Str → Str
  | _, 0, s => s
  | 0, _, s => s
  | fuel + 1, m + 1, s =>
    match pat, s with
    | [], [] => rep
    | [], c :: cs => rep ++ c :: replaceNFuel [] rep fuel m cs
    | _ :: _, [] => []
    | a :: as, c :: cs =>
      if startsWithPat (a :: as) (c :: cs) then
        rep ++ replaceNFuel (a :: as) rep fuel m (List.drop as.length cs)
      else
        c :: replaceNFuel (a :: as) rep fuel (m + 1) cs

/-- Modelled from the spec: replace only the first `n` non-overlapping
occurrences of `pat` with `rep`, left to right, stopping after `n`
replacements — the semantics of the missing `rewrite` module's `ReplaceN`
(Rust's `str::replacen`).  `n = 0` returns the input unchanged. -/
def replaceN (pat rep : Str) (n : Nat) (s : Str) : Str :=
  replaceNFuel pat rep (s.length + 1) n s

/-- Modelled from the spec: the closed set of rewrite-rule variants of the
missing `rewrite` module, as a tagged sum — `ReplaceAll`, `ReplaceN`,
`TrimPrefix`, `AppendSuffix`, `Static`, each holding only its own
immutable parameters. -/
inductive Rule where
  | ReplaceAll (pat rep : Str)
  | ReplaceN (pat rep : Str) (n : Nat)
  | TrimPrefix (pre : Str)
  | AppendSuffix (suf : Str)
  | Static (path : Str)

/-- Modelled from the spec: the rewrite-rule engine's
`apply(original_path_and_query) -> string`, dispatching on the rule tag.
`TrimPrefix` removes one leading copy of the prefix when it matches
byte-for-byte and otherwise degrades to identity; `AppendSuffix` is pure
concatenation; `Static` discards the input. -/
def applyRule : Rule → Str → Str
  | .ReplaceAll pat rep, s => replaceAll pat rep s
  | .ReplaceN pat rep n, s => replaceN pat rep n s
  | .TrimPrefix pre, s => if startsWithPat pre s then s.drop pre.length else s
  | .AppendSuffix suf, s => s ++ suf
  | .Static path, _ => path

/-- Decomposition of a string into segments separated by `sep`, with a
trailing remainder: `segJoin sep [p1, ..., pk] rest = p1 ++ sep ++ ... ++ pk ++ sep ++ rest`.
Used to state what a left-to-right replacement pass did. -/
def segJoin (sep : Str) : List Str → Str → Str
  | [], rest => rest
  | p :: ps, rest => p ++ (sep ++ segJoin sep ps rest)

/-- Every element of `l` is free of the substring `pat`. -/
def patFreeList (pat : Str) (l : List Str) : Prop :=
  ∀ p ∈ l, containsSub pat p = false

/-- A URI, reduced to the three components this layer manipulates. -/
structure Uri where
  scheme : Str
  authority : Str
  pathAndQuery : Str
deriving DecidableEq

/-- An HTTP request: method, target URI, headers and body. -/
structure Request where
  method : Str
  uri : Uri
  headers : List (Str × Str)
  body : Str
deriving DecidableEq

/-- An upstream HTTP response, reduced to status and body. -/
structure HttpResponse where
  status : Nat
  body : Str
deriving DecidableEq

/-- The upstream target bound by the builder: a scheme and an authority. -/
structure Target where
  scheme : Str
  authority : Str
deriving DecidableEq

/-- Modelled from the spec: the closed error taxonomy of the missing
`error` module — a rewrite failure or a transport failure, each carrying
a human-readable description. -/
inductive Error where
  | Rewrite (desc : Str)
  | Transport (desc : Str)
deriving DecidableEq

/-- The uninhabited outer error type of the service call
(`std::convert::Infallible`). -/
inductive Infallible : Type

/-- The transport collaborator: sends an outbound request and yields
either an upstream response or a transport failure description. -/
abbrev TransportFn := Request → Except Str HttpResponse

/-- Modelled from the spec: a character legal in a URI path/query
component (unreserved characters, sub-delimiters, and the path/query
punctuation, including percent for escapes). -/
def legalPathChar (c : Char) : Bool :=
  c.isAlphanum ||
    (c = '-' || c = '.' || c = '_' || c = '~' || c = '!' || c = '$' ||
     c = '&' || c = '(' || c = ')' || c = '*' || c = '+' || c = ',' ||
     c = ';' || c = '=' || c = ':' || c = '@' || c = '/' || c = '?' ||
     c = '%')

/-- Modelled from the spec: syntactic validity of a rewritten path+query —
it must be non-empty, start with a leading slash and contain only legal
URI path/query characters; otherwise composing the outbound URI fails. -/
def validPathAndQuery (s : Str) : Bool :=
  match s with
  | [] => false
  | c :: _ => c = '/' && s.all legalPathChar

/-- Modelled from the spec: the Request Reconstructor
`rebuild(inbound_request, rule, target) -> outbound_request | RewriteError`:
applies the rule to the inbound path+query, composes
`scheme://authority` + rewritten path+query, and copies method, headers
and body verbatim; if the rewritten string cannot form a valid URI the
call fails with a rewrite error and nothing is built. -/
def rebuild (target : Target) (rule : Rule) (req : Request) : Except Error Request :=
  let pq := applyRule rule req.uri.pathAndQuery
  if validPathAndQuery pq then
    Except.ok
      { method := req.method
        uri := { scheme := target.scheme, authority := target.authority, pathAndQuery := pq }
        headers := req.headers
        body := req.body }
  else
    Except.error (Error.Rewrite pq)

/-- Modelled from the spec: the states of the proxy invocation pipeline
(`RevProxyFuture`): `Initiated → Rewriting (synchronous) → Sending →
Completed`; rewriting is not a suspension point, so it is folded into the
transition out of `Initiated`. -/
inductive PipeState where
  | Initiated (req : Request)
  | Sending (out : Request)
  | Completed (outcome : Except Error HttpResponse)

/-- Modelled from the spec: one transition of the pipeline state machine.
A rewrite failure moves directly from `Initiated` to `Completed` without
ever entering `Sending`; `Completed` is terminal (no retry). -/
def pipeStep (tr : TransportFn) (target : Target) (rule : Rule) : PipeState → PipeState
  | PipeState.Initiated req =>
    match rebuild target rule req with
    | Except.error e => PipeState.Completed (Except.error e)
    | Except.ok out => PipeState.Sending out
  | PipeState.Sending out =>
    match tr out with
    | Except.error desc => PipeState.Completed (Except.error (Error.Transport desc))
    | Except.ok resp => PipeState.Completed (Except.ok resp)
  | PipeState.Completed o => PipeState.Completed o

/-- Modelled from the spec: the terminal value of the pipeline future
(`RevProxyFuture`): rewrite, then send, with both failure modes folded
into the single `Error` payload. -/
def revProxyFuture (tr : TransportFn) (target : Target) (rule : Rule)
    (req : Request) : Except Error HttpResponse :=
  match rebuild target rule req with
  | Except.error e => Except.error e
  | Except.ok out =>
    match tr out with
    | Except.error desc => Except.error (Error.Transport desc)
    | Except.ok resp => Except.ok resp

/-- Modelled from the spec: the result normalizer — the externally observed
call wraps the pipeline outcome in an outer result whose error channel is
the uninhabited `Infallible`, so the call itself always succeeds. -/
def revProxyCall (tr : TransportFn) (target : Target) (rule : Rule)
    (req : Request) : Except Infallible (Except Error HttpResponse) :=
  Except.ok (revProxyFuture tr target rule req)

/-- Modelled from the spec/docs: `OneshotService` owns its `Client`
exclusively. -/
structure OneshotService where
  client : TransportFn
  target : Target
  rule : Rule

/-- Modelled from the spec/docs: a reference-counted (`Arc`) handle to a
shared `Client`; `ptr` is the identity of the shared allocation, so two
handles with the same `ptr` observe the same transport instance. -/
structure ArcClient where
  ptr : Nat
  client : TransportFn

/-- Modelled from the spec/docs: `ReusedService` shares the `Client` via
`Arc`, holding the same handle as the builder it came from. -/
structure ReusedService where
  client : ArcClient
  target : Target
  rule : Rule

/-- Modelled from the spec/docs: `ReusedServiceBuilder` (`reused::Builder`)
binds the upstream target and the shared client. -/
structure Builder where
  client : ArcClient
  target : Target

/-- Modelled from the spec/docs: `Builder::build(rule)` clones the
`Arc<Client>` — the built service holds the same shared handle as the
builder — and pairs it with the chosen rule. -/
def Builder.build (b : Builder) (rule : Rule) : ReusedService :=
  { client := b.client, target := b.target, rule := rule }

/-- Modelled from the spec/docs: a `OneshotService` call drives the same
pipeline future over its exclusively owned client. -/
def OneshotService.call (s : OneshotService) (req : Request) :
    Except Infallible (Except Error HttpResponse) :=
  Except.ok (revProxyFuture s.client s.target s.rule req)

/-- Modelled from the spec/docs: a `ReusedService` call drives the same
pipeline future over the shared client. -/
def ReusedService.call (s : ReusedService) (req : Request) :
    Except Infallible (Except Error HttpResponse) :=
  Except.ok (revProxyFuture s.client.client s.target s.rule req)

/-- Modelled from the spec: the number of live holders of the shared
transport — the factory plus every instance built from it that is still
alive (the strong count of the `Arc`). -/
def liveHolders (factoryAlive : Bool) (instancesAlive : List Bool) : Nat :=
  (if factoryAlive then 1 else 0) + instancesAlive.count true

/-- Modelled from the spec: the shared transport is released exactly when
the reference count reaches zero. -/
def transportReleased (factoryAlive : Bool) (instancesAlive : List Bool) : Bool :=
  liveHolders factoryAlive instancesAlive == 0

/-- The fixed status code of the synthesized internal-error response. -/
def INTERNAL_SERVER_ERROR : Nat := 500

/-- Modelled from the spec/docs: the operator-facing description of each
error variant, destined for the error-level log. -/
def Error.description : Error → Str
  | Error.Rewrite desc => "rewrite error: ".data ++ desc
  | Error.Transport desc => "transport error: ".data ++ desc

/-- Modelled from the spec/docs: `IntoResponse` for `Error` — an empty
body with status code `INTERNAL_SERVER_ERROR`, for every variant; the
description is emitted to the log (second component), never to the body. -/
def intoResponse : Error → HttpResponse × Str
  | Error.Rewrite desc =>
    ({ status := INTERNAL_SERVER_ERROR, body := [] },
      Error.description (Error.Rewrite desc))
  | Error.Transport desc =>
    ({ status := INTERNAL_SERVER_ERROR, body := [] },
      Error.description (Error.Transport desc))

/-- The inbound request of end-to-end scenario A (`GET /foo/bar/foo` as in
the crate-root documentation example). -/
def scenarioAReq : Request :=
  { method := "GET".data
    uri := { scheme := "https".data, authority := "myserver.com".data
             pathAndQuery := "/foo/bar/foo".data }
    headers := [("accept".data, "text/html".data)]
    body := [] }

/-- The upstream target of the documentation example:
`http://example.com:1234`. -/
def scenarioATarget : Target :=
  { scheme := "http".data, authority := "example.com:1234".data }

/-- The expected outbound request of scenario A:
`GET http://example.com:1234/baz/bar/baz`, headers and body untouched. -/
def scenarioAOut : Request :=
  { method := "GET".data
    uri := { scheme := "http".data, authority := "example.com:1234".data
             pathAndQuery := "/baz/bar/baz".data }
    headers := [("accept".data, "text/html".data)]
    body := [] }

/-- The inbound request of end-to-end scenario B (`POST /foo/bar/foo` with
body `key=value`, as in the crate-root documentation example). -/
def scenarioBReq : Request :=
  { method := "POST".data
    uri := { scheme := "https".data, authority := "myserver.com".data
             pathAndQuery := "/foo/bar/foo".data }
    headers := [("content-type".data, "application/x-www-form-urlencoded".data)]
    body := "key=value".data }

/-- The expected outbound request of scenario B: path `/baz/bar/foo`,
method, headers and body unchanged. -/
def scenarioBOut : Request :=
  { method := "POST".data
    uri := { scheme := "http".data, authority := "example.com:1234".data
             pathAndQuery := "/baz/bar/foo".data }
    headers := [("content-type".data, "application/x-www-form-urlencoded".data)]
    body := "key=value".data }

/-- Decidable equality for `Except`, for evaluating concrete pipeline
outcomes. -/
instance instDecEqExcept {ε α : Type} [DecidableEq ε] [DecidableEq α] :
    DecidableEq (Except ε α) := fun x y =>
  match x, y with
  | Except.ok a, Except.ok b =>
    if h : a = b then isTrue (by rw [h])
    else isFalse (fun hc => h (by injection hc))
  | Except.error e, Except.error f =>
    if h : e = f then isTrue (by rw [h])
    else isFalse (fun hc => h (by injection hc))
  | Except.ok _, Except.error _ => isFalse (fun hc => Except.noConfusion hc)
  | Except.error _, Except.ok _ => isFalse (fun hc => Except.noConfusion hc)

/-- The inbound request of end-to-end scenario C (`GET /users`, whose
whole path is stripped by `TrimPrefix("/users")`, leaving an empty —
hence invalid — path+query). -/
def scenarioCReq : Request :=
  { method := "GET".data
    uri := { scheme := "https".data, authority := "test.com".data
             pathAndQuery := "/users".data }
    headers := []
    body := [] }

/-- A transport that always reports a connection failure. -/
def nullTransport : TransportFn := fun _ => Except.error "connection refused".data

/-- A transport that always answers `200 ok`. -/
def okTransport : TransportFn := fun _ => Except.ok { status := 200, body := "ok".data }

/-- A concrete builder used by the witnesses. -/
def sampleBuilder : Builder :=
  { client := { ptr := 0, client := nullTransport }, target := scenarioATarget }

example : replaceAll "foo".data "baz".data "/foo/bar/foo".data = "/baz/bar/baz".data := by decide

example : replaceN "foo".data "baz".data 1 "/foo/bar/foo".data = "/baz/bar/foo".data := by decide

example : replaceAll "aa".data "a".data "aaa".data = "aa".data := by decide

example : replaceAll "".data "x".data "abc".data = "xaxbxcx".data := by decide

example : replaceN "".data "x".data 2 "abc".data = "xaxbc".data := by decide

example : applyRule (.TrimPrefix "/users".data) "/users/42".data = "/42".data := by decide

lemma startsWithPat_iff (pat : Str) : ∀ s : Str,
    startsWithPat pat s = true ↔ ∃ t, s = pat ++ t := by
  induction pat with
  | nil => intro s; simp [startsWithPat]
  | cons a as ih =>
    intro s
    cases s with
    | nil =>
      simp [startsWithPat]
    | cons b bs =>
      simp only [startsWithPat, Bool.and_eq_true, beq_iff_eq, ih bs,
        List.cons_append, List.cons.injEq]
      constructor
      · rintro ⟨hab, t, ht⟩; exact ⟨t, hab.symm, ht⟩
      · rintro ⟨t, hab, ht⟩; exact ⟨hab.symm, t, ht⟩

lemma containsSub_cons (pat : Str) (c : Char) (cs : Str) :
    containsSub pat (c :: cs) = (startsWithPat pat (c :: cs) || containsSub pat cs) := by
  simp [containsSub]

lemma containsSub_nil_of_ne (a : Char) (as : Str) :
    containsSub (a :: as) [] = false := rfl

lemma replaceAllFuel_congr (pat rep : Str) :
    ∀ f₁ f₂ s, s.length < f₁ → s.length < f₂ →
      replaceAllFuel pat rep f₁ s = replaceAllFuel pat rep f₂ s := by
  intro f₁
  induction f₁ with
  | zero => intro f₂ s h₁ _; exact absurd h₁ (Nat.not_lt_zero _)
  | succ g₁ ih =>
    intro f₂ s h₁ h₂
    cases f₂ with
    | zero => exact absurd h₂ (Nat.not_lt_zero _)
    | succ g₂ =>
      cases pat with
      | nil =>
        cases s with
        | nil => simp [replaceAllFuel]
        | cons c cs =>
          simp only [List.length_cons] at h₁ h₂
          simp only [replaceAllFuel]
          rw [ih g₂ cs (by omega) (by omega)]
      | cons a as =>
        cases s with
        | nil => simp [replaceAllFuel]
        | cons c cs =>
          simp only [List.length_cons] at h₁ h₂
          simp only [replaceAllFuel]
          by_cases hsw : startsWithPat (a :: as) (c :: cs) = true
          · rw [if_pos hsw, if_pos hsw,
              ih g₂ (List.drop as.length cs)
                (by simp only [List.length_drop]; omega)
                (by simp only [List.length_drop]; omega)]
          · rw [if_neg hsw, if_neg hsw, ih g₂ cs (by omega) (by omega)]

lemma replaceNFuel_congr (pat rep : Str) :
    ∀ f₁ f₂ n s, s.length < f₁ → s.length < f₂ →
      replaceNFuel pat rep f₁ n s = replaceNFuel pat rep f₂ n s := by
  intro f₁
  induction f₁ with
  | zero => intro f₂ n s h₁ _; exact absurd h₁ (Nat.not_lt_zero _)
  | succ g₁ ih =>
    intro f₂ n s h₁ h₂
    cases f₂ with
    | zero => exact absurd h₂ (Nat.not_lt_zero _)
    | succ g₂ =>
      cases n with
      | zero => simp [replaceNFuel]
      | succ m =>
        cases pat with
        | nil =>
          cases s with
          | nil => simp [replaceNFuel]
          | cons c cs =>
            simp only [List.length_cons] at h₁ h₂
            simp only [replaceNFuel]
            rw [ih g₂ m cs (by omega) (by omega)]
        | cons a as =>
          cases s with
          | nil => simp [replaceNFuel]
          | cons c cs =>
            simp only [List.length_cons] at h₁ h₂
            simp only [replaceNFuel]
            by_cases hsw : startsWithPat (a :: as) (c :: cs) = true
            · rw [if_pos hsw, if_pos hsw,
                ih g₂ m (List.drop as.length cs)
                  (by simp only [List.length_drop]; omega)
                  (by simp only [List.length_drop]; omega)]
            · rw [if_neg hsw, if_neg hsw, ih g₂ (m + 1) cs (by omega) (by omega)]

lemma replaceAll_pat_nil (a : Char) (as rep : Str) :
    replaceAll (a :: as) rep [] = [] := rfl

lemma replaceAll_cons_no (a c : Char) (as cs rep : Str)
    (h : startsWithPat (a :: as) (c :: cs) = false) :
    replaceAll (a :: as) rep (c :: cs) = c :: replaceAll (a :: as) rep cs := by
  simp [replaceAll, replaceAllFuel, h]

lemma replaceAll_cons_match (a c : Char) (as cs t rep : Str)
    (h : c :: cs = (a :: as) ++ t) :
    replaceAll (a :: as) rep (c :: cs) = rep ++ replaceAll (a :: as) rep t := by
  have hsw : startsWithPat (a :: as) (c :: cs) = true :=
    (startsWithPat_iff (a :: as) (c :: cs)).mpr ⟨t, h⟩
  rw [List.cons_append] at h
  injection h with hc hcs
  have hdrop : List.drop as.length cs = t := by
    rw [hcs]; exact List.drop_left as t
  have hlen : t.length ≤ cs.length := by
    rw [hcs]; simp
  have hcongr : replaceAll (a :: as) rep t =
      replaceAllFuel (a :: as) rep (cs.length + 1) t :=
    replaceAllFuel_congr (a :: as) rep (t.length + 1) (cs.length + 1) t
      (by omega) (by omega)
  rw [hcongr]
  simp only [replaceAll, List.length_cons, replaceAllFuel, if_pos hsw, hdrop]

lemma replaceN_zero (pat rep s : Str) : replaceN pat rep 0 s = s := rfl

lemma replaceN_succ_pat_nil (a : Char) (as rep : Str) (m : Nat) :
    replaceN (a :: as) rep (m + 1) [] = [] := rfl

lemma replaceN_succ_cons_no (a c : Char) (as cs rep : Str) (m : Nat)
    (h : startsWithPat (a :: as) (c :: cs) = false) :
    replaceN (a :: as) rep (m + 1) (c :: cs) =
      c :: replaceN (a :: as) rep (m + 1) cs := by
  simp [replaceN, replaceNFuel, h]

lemma replaceN_succ_cons_match (a c : Char) (as cs t rep : Str) (m : Nat)
    (h : c :: cs = (a :: as) ++ t) :
    replaceN (a :: as) rep (m + 1) (c :: cs) =
      rep ++ replaceN (a :: as) rep m t := by
  have hsw : startsWithPat (a :: as) (c :: cs) = true :=
    (startsWithPat_iff (a :: as) (c :: cs)).mpr ⟨t, h⟩
  rw [List.cons_append] at h
  injection h with hc hcs
  have hdrop : List.drop as.length cs = t := by
    rw [hcs]; exact List.drop_left as t
  have hlen : t.length ≤ cs.length := by
    rw [hcs]; simp
  have hcongr : replaceN (a :: as) rep m t =
      replaceNFuel (a :: as) rep (cs.length + 1) m t :=
    replaceNFuel_congr (a :: as) rep (t.length + 1) (cs.length + 1) m t
      (by omega) (by omega)
  rw [hcongr]
  simp only [replaceN, List.length_cons, replaceNFuel, if_pos hsw, hdrop]

lemma patFree_cons_head (a c : Char) (as q X : Str)
    (hsw : startsWithPat (a :: as) (c :: (q ++ ((a :: as) ++ X))) = false)
    (hq : containsSub (a :: as) q = false) :
    containsSub (a :: as) (c :: q) = false := by
  rw [containsSub_cons, hq, Bool.or_false]
  cases hsq : startsWithPat (a :: as) (c :: q) with
  | false => rfl
  | true =>
    exfalso
    obtain ⟨u, hu⟩ := (startsWithPat_iff (a :: as) (c :: q)).mp hsq
    have hful : startsWithPat (a :: as) (c :: (q ++ ((a :: as) ++ X))) = true := by
      apply (startsWithPat_iff _ _).mpr
      refine ⟨u ++ ((a :: as) ++ X), ?_⟩
      have h2 := congrArg (fun l => l ++ ((a :: as) ++ X)) hu
      simp only [List.cons_append, List.append_assoc] at h2
      simpa only [List.cons_append, List.append_assoc] using h2
    rw [hsw] at hful
    exact Bool.false_ne_true hful

lemma replaceAll_decompAux (a : Char) (as rep : Str) :
    ∀ (N : Nat) (s : Str), s.length ≤ N → ∃ parts rest,
      s = segJoin (a :: as) parts rest ∧
      replaceAll (a :: as) rep s = segJoin rep parts rest ∧
      patFreeList (a :: as) parts ∧
      containsSub (a :: as) rest = false := by
  intro N
  induction N with
  | zero =>
    intro s hs
    have hnil : s = [] := List.length_eq_zero.mp (Nat.le_zero.mp hs)
    subst hnil
    exact ⟨[], [], rfl, rfl, fun p hp => absurd hp (List.not_mem_nil p), rfl⟩
  | succ N ih =>
    intro s hs
    cases s with
    | nil =>
      exact ⟨[], [], rfl, rfl, fun p hp => absurd hp (List.not_mem_nil p), rfl⟩
    | cons c cs =>
      simp only [List.length_cons] at hs
      cases hsw : startsWithPat (a :: as) (c :: cs) with
      | true =>
        obtain ⟨t, ht⟩ := (startsWithPat_iff (a :: as) (c :: cs)).mp hsw
        have htlen : t.length ≤ N := by
          have hl := congrArg List.length ht
          simp only [List.length_cons, List.length_append] at hl
          omega
        obtain ⟨ps, rest, hseq, hrep, hfree, hrest⟩ := ih t htlen
        refine ⟨[] :: ps, rest, ?_, ?_, ?_, hrest⟩
        · simp only [segJoin, List.nil_append]
          rw [← hseq]
          exact ht
        · rw [replaceAll_cons_match a c as cs t rep ht, hrep]
          simp [segJoin]
        · intro p hp
          rcases List.mem_cons.mp hp with hpe | hp'
          · subst hpe; rfl
          · exact hfree p hp'
      | false =>
        have hcs : cs.length ≤ N := by omega
        obtain ⟨ps, rest, hseq, hrep, hfree, hrest⟩ := ih cs hcs
        cases ps with
        | nil =>
          simp only [segJoin] at hseq hrep
          refine ⟨[], c :: cs, rfl, ?_,
            fun p hp => absurd hp (List.not_mem_nil p), ?_⟩
          · simp only [segJoin]
            rw [replaceAll_cons_no a c as cs rep hsw, hrep, ← hseq]
          · rw [containsSub_cons, hsw, Bool.false_or, hseq]
            exact hrest
        | cons q qs =>
          simp only [segJoin] at hseq
          refine ⟨(c :: q) :: qs, rest, ?_, ?_, ?_, hrest⟩
          · simp only [segJoin, List.cons_append]
            rw [hseq]
            simp only [List.cons_append]
          · rw [replaceAll_cons_no a c as cs rep hsw, hrep]
            simp only [segJoin, List.cons_append]
          · intro p hp
            rcases List.mem_cons.mp hp with hpe | hp'
            · subst hpe
              rw [hseq] at hsw
              exact patFree_cons_head a c as q (segJoin (a :: as) qs rest) hsw
                (hfree q (List.mem_cons_self q qs))
            · exact hfree p (List.mem_cons_of_mem _ hp')

lemma replaceAll_decomp (pat rep s : Str) (hpat : pat ≠ []) :
    ∃ parts rest,
      s = segJoin pat parts rest ∧
      replaceAll pat rep s = segJoin rep parts rest ∧
      patFreeList pat parts ∧
      containsSub pat rest = false := by
  cases pat with
  | nil => exact absurd rfl hpat
  | cons a as => exact replaceAll_decompAux a as rep s.length s (le_refl _)

lemma replaceN_decompAux (a : Char) (as rep : Str) :
    ∀ (N n : Nat) (s : Str), s.length ≤ N → ∃ parts rest,
      parts.length ≤ n ∧
      s = segJoin (a :: as) parts rest ∧
      replaceN (a :: as) rep n s = segJoin rep parts rest ∧
      patFreeList (a :: as) parts ∧
      (parts.length < n → containsSub (a :: as) rest = false) := by
  intro N
  induction N with
  | zero =>
    intro n s hs
    have hnil : s = [] := List.length_eq_zero.mp (Nat.le_zero.mp hs)
    subst hnil
    refine ⟨[], [], Nat.zero_le n, rfl, ?_,
      fun p hp => absurd hp (List.not_mem_nil p), fun _ => rfl⟩
    cases n with
    | zero => rfl
    | succ m => rfl
  | succ N ih =>
    intro n s hs
    cases n with
    | zero =>
      exact ⟨[], s, le_refl 0, rfl, rfl,
        fun p hp => absurd hp (List.not_mem_nil p),
        fun h => absurd h (Nat.lt_irrefl 0)⟩
    | succ m =>
      cases s with
      | nil =>
        exact ⟨[], [], Nat.zero_le _, rfl, rfl,
          fun p hp => absurd hp (List.not_mem_nil p), fun _ => rfl⟩
      | cons c cs =>
        simp only [List.length_cons] at hs
        cases hsw : startsWithPat (a :: as) (c :: cs) with
        | true =>
          obtain ⟨t, ht⟩ := (startsWithPat_iff (a :: as) (c :: cs)).mp hsw
          have htlen : t.length ≤ N := by
            have hl := congrArg List.length ht
            simp only [List.length_cons, List.length_append] at hl
            omega
          obtain ⟨ps, rest, hplen, hseq, hrep, hfree, hlt⟩ := ih m t htlen
          refine ⟨[] :: ps, rest, ?_, ?_, ?_, ?_, ?_⟩
          · simp only [List.length_cons]; omega
          · simp only [segJoin, List.nil_append]
            rw [← hseq]
            exact ht
          · rw [replaceN_succ_cons_match a c as cs t rep m ht, hrep]
            simp [segJoin]
          · intro p hp
            rcases List.mem_cons.mp hp with hpe | hp'
            · subst hpe; rfl
            · exact hfree p hp'
          · intro hlen'
            apply hlt
            simp only [List.length_cons] at hlen'
            omega
        | false =>
          have hcs : cs.length ≤ N := by omega
          obtain ⟨ps, rest, hplen, hseq, hrep, hfree, hlt⟩ := ih (m + 1) cs hcs
          cases ps with
          | nil =>
            simp only [segJoin] at hseq hrep
            refine ⟨[], c :: cs, Nat.zero_le _, rfl, ?_,
              fun p hp => absurd hp (List.not_mem_nil p), ?_⟩
            · simp only [segJoin]
              rw [replaceN_succ_cons_no a c as cs rep m hsw, hrep, ← hseq]
            · intro _
              rw [containsSub_cons, hsw, Bool.false_or, hseq]
              exact hlt (Nat.succ_pos m)
          | cons q qs =>
            simp only [segJoin] at hseq
            refine ⟨(c :: q) :: qs, rest, ?_, ?_, ?_, ?_, ?_⟩
            · simpa using hplen
            · simp only [segJoin, List.cons_append]
              rw [hseq]
              simp only [List.cons_append]
            · rw [replaceN_succ_cons_no a c as cs rep m hsw, hrep]
              simp only [segJoin, List.cons_append]
            · intro p hp
              rcases List.mem_cons.mp hp with hpe | hp'
              · subst hpe
                rw [hseq] at hsw
                exact patFree_cons_head a c as q (segJoin (a :: as) qs rest) hsw
                  (hfree q (List.mem_cons_self q qs))
              · exact hfree p (List.mem_cons_of_mem _ hp')
            · intro hlen'
              apply hlt
              simp only [List.length_cons] at hlen' ⊢
              omega

lemma replaceN_decomp (pat rep s : Str) (n : Nat) (hpat : pat ≠ []) :
    ∃ parts rest,
      parts.length ≤ n ∧
      s = segJoin pat parts rest ∧
      replaceN pat rep n s = segJoin rep parts rest ∧
      patFreeList pat parts ∧
      (parts.length < n → containsSub pat rest = false) := by
  cases pat with
  | nil => exact absurd rfl hpat
  | cons a as => exact replaceN_decompAux a as rep s.length n s (le_refl _)

/-- Claim C1: for every inbound request, awaiting the proxy service call
always yields an outer success — the outer error channel of type
`Infallible` is never used — and any rewrite or transport failure appears
only as the inner payload of type `Error` inside the outer `Ok`. -/
theorem revProxyCall_never_fails (tr : TransportFn) (target : Target)
    (rule : Rule) (req : Request) :
    revProxyCall tr target rule req = Except.ok (revProxyFuture tr target rule req) ∧
    ∀ err : Infallible, revProxyCall tr target rule req ≠ Except.error err :=
  ⟨rfl, fun err => nomatch err⟩

/-- Claim C2: `ReplaceAll(from,to)` replaces every non-overlapping
occurrence of the literal substring `from` in the path+query with `to`:
the input decomposes into `from`-free segments separated by `from` and a
`from`-free remainder, and the rewrite returns the same segments
separated by `to` instead; in particular, for inbound `GET /foo/bar/foo`
with rule `ReplaceAll("foo","baz")` and upstream authority
`example.com:1234`, the outbound request targets
`GET http://example.com:1234/baz/bar/baz`. -/
theorem replaceAll_every_occurrence (pat rep s : Str) (hpat : pat ≠ []) :
    (∃ parts rest,
        s = segJoin pat parts rest ∧
        applyRule (Rule.ReplaceAll pat rep) s = segJoin rep parts rest ∧
        patFreeList pat parts ∧
        containsSub pat rest = false) ∧
    rebuild scenarioATarget (Rule.ReplaceAll "foo".data "baz".data) scenarioAReq =
      Except.ok scenarioAOut :=
  ⟨replaceAll_decomp pat rep s hpat, by decide⟩

/-- Witness for C2 at `from = "foo"`, `to = "baz"`, `s = "/foo/bar/foo"`. -/
theorem replaceAll_every_occurrence_witness :
    (∃ parts rest,
        "/foo/bar/foo".data = segJoin "foo".data parts rest ∧
        applyRule (Rule.ReplaceAll "foo".data "baz".data) "/foo/bar/foo".data =
          segJoin "baz".data parts rest ∧
        patFreeList "foo".data parts ∧
        containsSub "foo".data rest = false) ∧
    rebuild scenarioATarget (Rule.ReplaceAll "foo".data "baz".data) scenarioAReq =
      Except.ok scenarioAOut :=
  replaceAll_every_occurrence "foo".data "baz".data "/foo/bar/foo".data (by decide)

/-- Claim C3: `ReplaceN(from,to,n)` replaces only the first `n`
non-overlapping occurrences of `from`, left to right — the input
decomposes into at most `n` `from`-free segments each followed by `from`,
plus an untouched remainder, and when fewer than `n` replacements
happened the remainder has no occurrence left — `n = 0` returns every
input unchanged, and on `/foo/bar/foo` with `ReplaceN("foo","baz",1)` the
second occurrence remains: the result is `/baz/bar/foo`. -/
theorem replaceN_first_n_and_zero_noop (pat rep s : Str) (n : Nat) (hpat : pat ≠ []) :
    (∀ t : Str, applyRule (Rule.ReplaceN pat rep 0) t = t) ∧
    (∃ parts rest,
        parts.length ≤ n ∧
        s = segJoin pat parts rest ∧
        applyRule (Rule.ReplaceN pat rep n) s = segJoin rep parts rest ∧
        patFreeList pat parts ∧
        (parts.length < n → containsSub pat rest = false)) ∧
    applyRule (Rule.ReplaceN "foo".data "baz".data 1) "/foo/bar/foo".data =
      "/baz/bar/foo".data :=
  ⟨fun _ => rfl, replaceN_decomp pat rep s n hpat, by decide⟩

/-- Witness for C3 at `from = "foo"`, `to = "baz"`, `n = 1`,
`s = "/foo/bar/foo"`. -/
theorem replaceN_first_n_and_zero_noop_witness :
    (∀ t : Str, applyRule (Rule.ReplaceN "foo".data "baz".data 0) t = t) ∧
    (∃ parts rest,
        parts.length ≤ 1 ∧
        "/foo/bar/foo".data = segJoin "foo".data parts rest ∧
        applyRule (Rule.ReplaceN "foo".data "baz".data 1) "/foo/bar/foo".data =
          segJoin "baz".data parts rest ∧
        patFreeList "foo".data parts ∧
        (parts.length < 1 → containsSub "foo".data rest = false)) ∧
    applyRule (Rule.ReplaceN "foo".data "baz".data 1) "/foo/bar/foo".data =
      "/baz/bar/foo".data :=
  replaceN_first_n_and_zero_noop "foo".data "baz".data "/foo/bar/foo".data 1 (by decide)

/-- Claim C4: `TrimPrefix(prefix)` removes exactly one leading copy of the
prefix when the input starts with it byte-for-byte (so
`prefix ++ result = input`, and if the input is `prefix ++ t` the result
is exactly `t`, even when `t` starts with the prefix again — at most one
removal per application); on any mismatch it returns the input unchanged
and never fails. -/
theorem trimOnePre_or_identity (pre s : Str) :
    (startsWithPat pre s = true →
      pre ++ applyRule (Rule.TrimPrefix pre) s = s) ∧
    (startsWithPat pre s = false → applyRule (Rule.TrimPrefix pre) s = s) ∧
    (∀ t, s = pre ++ t → applyRule (Rule.TrimPrefix pre) s = t) := by
  refine ⟨?_, ?_, ?_⟩
  · intro h
    obtain ⟨t, rfl⟩ := (startsWithPat_iff pre s).mp h
    simp only [applyRule, if_pos h]
    rw [List.drop_left]
  · intro h
    simp [applyRule, h]
  · intro t ht
    subst ht
    have hsw : startsWithPat pre (pre ++ t) = true :=
      (startsWithPat_iff pre (pre ++ t)).mpr ⟨t, rfl⟩
    simp only [applyRule, if_pos hsw]
    rw [List.drop_left]

/-- Witness for C4: `TrimPrefix("/a")` on `/a/a/x` strips exactly one
copy, leaving `/a/x` (and on `/users/42` the prefix `/users` leaves
`/42`). -/
theorem trimOnePre_or_identity_witness :
    applyRule (Rule.TrimPrefix "/a".data) "/a/a/x".data = "/a/x".data ∧
    applyRule (Rule.TrimPrefix "/users".data) "/users/42".data = "/42".data :=
  ⟨(trimOnePre_or_identity "/a".data "/a/a/x".data).2.2 "/a/x".data (by decide),
    (trimOnePre_or_identity "/users".data "/users/42".data).2.2 "/42".data (by decide)⟩

/-- Counterexample to claim C5 as stated: the URI scheme is NOT among the
unmodified components of the outbound request — the builder's configured
scheme replaces the inbound one, exactly as in the crate-root
documentation example, where inbound `https://myserver.com/foo/bar/foo`
is forwarded to `http://example.com:1234/baz/bar/baz`. -/
theorem outbound_scheme_counterexample :
    rebuild scenarioATarget (Rule.ReplaceAll "foo".data "baz".data) scenarioAReq =
      Except.ok scenarioAOut ∧
    scenarioAOut.uri.scheme ≠ scenarioAReq.uri.scheme :=
  ⟨by decide, by decide⟩

/-- Claim C5 (amended): the reconstructed outbound request copies method,
all headers and the body verbatim from the inbound request; the target
URI's scheme and authority are the configured upstream ones and its
path+query is the rewritten inbound path+query — i.e. the scheme is
replaced together with the authority, not preserved. -/
theorem outbound_frame (target : Target) (rule : Rule) (req out : Request)
    (h : rebuild target rule req = Except.ok out) :
    out.method = req.method ∧ out.headers = req.headers ∧ out.body = req.body ∧
    out.uri.scheme = target.scheme ∧ out.uri.authority = target.authority ∧
    out.uri.pathAndQuery = applyRule rule req.uri.pathAndQuery := by
  rw [rebuild] at h
  split at h
  · injection h with h'
    subst h'
    exact ⟨rfl, rfl, rfl, rfl, rfl, rfl⟩
  · exact absurd h (by simp)

/-- Witness for C5 (amended) on scenario B: `POST /foo/bar/foo` with body
`key=value` and rule `ReplaceN("foo","baz",1)` yields outbound path
`/baz/bar/foo` with method, headers and body unchanged. -/
theorem outbound_frame_witness :
    scenarioBOut.method = scenarioBReq.method ∧
    scenarioBOut.headers = scenarioBReq.headers ∧
    scenarioBOut.body = scenarioBReq.body ∧
    scenarioBOut.uri.scheme = scenarioATarget.scheme ∧
    scenarioBOut.uri.authority = scenarioATarget.authority ∧
    scenarioBOut.uri.pathAndQuery =
      applyRule (Rule.ReplaceN "foo".data "baz".data 1) scenarioBReq.uri.pathAndQuery :=
  outbound_frame scenarioATarget (Rule.ReplaceN "foo".data "baz".data 1)
    scenarioBReq scenarioBOut (by decide)

/-- Claim C6: when the rewritten path+query cannot be composed into a
valid absolute URI, the call completes with a rewrite error; the pipeline
never reaches the `Sending` state and its outcome does not depend on the
transport (nothing is sent upstream), and `Completed` is terminal, so the
error is never retried. -/
theorem rewrite_error_terminal (tr tr' : TransportFn) (target : Target)
    (rule : Rule) (req : Request)
    (h : validPathAndQuery (applyRule rule req.uri.pathAndQuery) = false) :
    revProxyFuture tr target rule req =
      Except.error (Error.Rewrite (applyRule rule req.uri.pathAndQuery)) ∧
    revProxyFuture tr target rule req = revProxyFuture tr' target rule req ∧
    (∀ (k : Nat) (out : Request),
      (pipeStep tr target rule)^[k] (PipeState.Initiated req) ≠ PipeState.Sending out) ∧
    (∀ o, pipeStep tr target rule (PipeState.Completed o) = PipeState.Completed o) := by
  have hre : rebuild target rule req =
      Except.error (Error.Rewrite (applyRule rule req.uri.pathAndQuery)) := by
    rw [rebuild, if_neg]
    simp [h]
  have hterm : ∀ o, pipeStep tr target rule (PipeState.Completed o) =
      PipeState.Completed o := fun o => rfl
  have habs : ∀ (k : Nat) (o : Except Error HttpResponse),
      (pipeStep tr target rule)^[k] (PipeState.Completed o) = PipeState.Completed o := by
    intro k
    induction k with
    | zero => intro o; rfl
    | succ k ihk =>
      intro o
      rw [Function.iterate_succ_apply, hterm o, ihk o]
  refine ⟨?_, ?_, ?_, hterm⟩
  · simp [revProxyFuture, hre]
  · simp [revProxyFuture, hre]
  · intro k out
    have hstep : pipeStep tr target rule (PipeState.Initiated req) =
        PipeState.Completed (Except.error (Error.Rewrite (applyRule rule req.uri.pathAndQuery))) := by
      simp [pipeStep, hre]
    cases k with
    | zero => exact fun hcon => PipeState.noConfusion hcon
    | succ k =>
      rw [Function.iterate_succ_apply, hstep, habs k]
      exact fun hcon => PipeState.noConfusion hcon

/-- Witness for C6: `TrimPrefix("/users")` on inbound path `/users`
rewrites it to the empty string, which is not a valid path+query, so the
pipeline terminates with a rewrite error regardless of the transport. -/
theorem rewrite_error_terminal_witness :
    revProxyFuture nullTransport scenarioATarget (Rule.TrimPrefix "/users".data)
        scenarioCReq =
      Except.error (Error.Rewrite
        (applyRule (Rule.TrimPrefix "/users".data) scenarioCReq.uri.pathAndQuery)) ∧
    revProxyFuture nullTransport scenarioATarget (Rule.TrimPrefix "/users".data)
        scenarioCReq =
      revProxyFuture okTransport scenarioATarget (Rule.TrimPrefix "/users".data)
        scenarioCReq ∧
    (∀ (k : Nat) (out : Request),
      (pipeStep nullTransport scenarioATarget (Rule.TrimPrefix "/users".data))^[k]
          (PipeState.Initiated scenarioCReq) ≠ PipeState.Sending out) ∧
    (∀ o, pipeStep nullTransport scenarioATarget (Rule.TrimPrefix "/users".data)
        (PipeState.Completed o) = PipeState.Completed o) :=
  rewrite_error_terminal nullTransport okTransport scenarioATarget
    (Rule.TrimPrefix "/users".data) scenarioCReq (by decide)

/-- Claim C7: services built from the same builder share the very same
client handle as the builder (share-not-copy); the shared transport is
released exactly when the factory and every instance built from it have
all been dropped (the reference count reaches zero, and only then); a
`OneshotService` instead holds its transport directly, owning it
exclusively. -/
theorem shared_transport (b : Builder) (r₁ r₂ : Rule) (factoryAlive : Bool)
    (instancesAlive : List Bool) (c : TransportFn) (tg : Target) (r : Rule) :
    ((b.build r₁).client = b.client ∧ (b.build r₂).client = b.client ∧
      (b.build r₁).client.ptr = (b.build r₂).client.ptr) ∧
    (transportReleased factoryAlive instancesAlive = true ↔
      (factoryAlive = false ∧ ∀ x ∈ instancesAlive, x = false)) ∧
    (OneshotService.mk c tg r).client = c := by
  refine ⟨⟨rfl, rfl, rfl⟩, ?_, rfl⟩
  simp only [transportReleased, liveHolders, beq_iff_eq, Nat.add_eq_zero]
  constructor
  · rintro ⟨h₁, h₂⟩
    constructor
    · cases factoryAlive with
      | false => rfl
      | true => simp at h₁
    · intro x hx
      have hnm : true ∉ instancesAlive := List.count_eq_zero.mp h₂
      cases x with
      | false => rfl
      | true => exact absurd hx hnm
  · rintro ⟨hf, hall⟩
    subst hf
    refine ⟨rfl, List.count_eq_zero.mpr ?_⟩
    intro hmem
    exact Bool.noConfusion (hall true hmem)

/-- Witness for C7: a dropped factory with two dropped instances has
released the transport; the sample builder's builds share its client. -/
theorem shared_transport_witness :
    ((sampleBuilder.build (Rule.Static "/".data)).client = sampleBuilder.client ∧
      (sampleBuilder.build (Rule.AppendSuffix "/".data)).client = sampleBuilder.client ∧
      (sampleBuilder.build (Rule.Static "/".data)).client.ptr =
        (sampleBuilder.build (Rule.AppendSuffix "/".data)).client.ptr) ∧
    (transportReleased false [false, false] = true ↔
      (false = false ∧ ∀ x ∈ [false, false], x = false)) ∧
    (OneshotService.mk nullTransport scenarioATarget (Rule.Static "/".data)).client =
      nullTransport :=
  shared_transport sampleBuilder (Rule.Static "/".data) (Rule.AppendSuffix "/".data)
    false [false, false] nullTransport scenarioATarget (Rule.Static "/".data)

/-- Claim C8: rendering an `Error` into an HTTP response always produces
an empty body and the fixed status `INTERNAL_SERVER_ERROR`, for every
variant; the descriptive text goes to the log channel, never into the
client response body. -/
theorem error_into_response_fixed (e : Error) :
    (intoResponse e).1.status = INTERNAL_SERVER_ERROR ∧
    (intoResponse e).1.body = [] ∧
    (intoResponse e).2 = Error.description e := by
  cases e with
  | Rewrite d => exact ⟨rfl, rfl, rfl⟩
  | Transport d => exact ⟨rfl, rfl, rfl⟩

/-- Claim C9: `AppendSuffix(suffix).apply(s) = s ++ suffix` — pure
unconditional concatenation at the end of the path+query, with no
boundary normalization. -/
theorem appendSuffix_concat (suf s : Str) :
    applyRule (Rule.AppendSuffix suf) s = s ++ suf := rfl

/-- Claim C10: `OneshotService` and `ReusedService` are per-call
behaviourally equivalent — for the same transport, target, rule and
inbound request both produce exactly the same invocation outcome, both
driving the same pipeline future; the variants differ only in how the
transport is owned. -/
theorem oneshot_reused_equivalent (c : TransportFn) (ptr : Nat)
    (target : Target) (rule : Rule) (req : Request) :
    OneshotService.call ⟨c, target, rule⟩ req =
      ReusedService.call ⟨⟨ptr, c⟩, target, rule⟩ req ∧
    OneshotService.call ⟨c, target, rule⟩ req =
      Except.ok (revProxyFuture c target rule req) :=
  ⟨rfl, rfl⟩

end RevProxy
